import Mathlib

/-!
Verification of the knowhere flat / GPU-IVF index-node subsystem
(`src/index/flat/flat.cc`, the GPU IVF node, `common/Utils.cpp`)
as a shallow embedding in Lean.

Machine floats are embedded as exact integers (`Int`): the claims under
study concern control flow, buffer bookkeeping and ordering, never the
numeric value of a distance, so an exact scalar carrier is faithful.
The faiss numeric backend is external to the repository; per-row search
kernels are taken as function parameters where a claim quantifies over
them, and as a concrete executable brute-force stand-in where a claim
needs a closed instance.
-/

namespace Knowhere

/-- Status codes returned by the index-node operations (`knowhere::Status`). -/
inductive Status where
  | success
  | empty_index
  | faiss_inner_error
  | not_implemented
  | malloc_error
  | invalid_metric_type
  | index_not_trained
  | index_already_trained
  deriving DecidableEq

/-- Metric kinds used by the flat index (`faiss::MetricType`, restricted to
the kinds the spec names: L2, inner product, Hamming). -/
inductive Metric where
  | L2
  | IP
  | Hamming
  deriving DecidableEq

/-- Modelled from the spec: `Str2FaissMetricType` (declared in
`common/metric.h`, definition not under `src/`) maps a metric-type string to
a faiss metric kind, failing with an error status on an unknown string. -/
def Str2FaissMetricType (s : String) : Except Status Metric :=
  if s = "L2" then .ok .L2
  else if s = "IP" then .ok .IP
  else if s = "HAMMING" then .ok .Hamming
  else .error .invalid_metric_type

/-- A caller-owned dataset: a row-major tensor of `rows × dim` scalars,
embedded as a list of rows (`DataSet` with `GetRows`, `GetDim`,
`GetTensor`). -/
structure DataSet where
  dim : Nat
  tensor : List (List Int)
  deriving DecidableEq

/-- `DataSet::GetRows`. -/
def DataSet.GetRows (ds : DataSet) : Nat := ds.tensor.length

/-- Search/range-search configuration (`FlatConfig`): metric string, top-k,
radius and band filter. The C++ disabled sentinel `defaultRangeFilter`
(an out-of-band float) is embedded as `none`; an enabled filter value as
`some rf`. -/
structure FlatConfig where
  metric_type : String
  k : Nat
  radius : Int
  range_filter : Option Int
  deriving DecidableEq

end Knowhere

namespace Knowhere

/-! ## The per-row fan-out of `FlatIndexNode::Search`

`Search` allocates `ids`/`dis` buffers of length `k * nq` and pushes one
task per query row `i`; task `i` writes only `ids[k*i .. k*i+k-1]` (and the
matching distance cells), computed by the backend from query row `i` alone
(`x + index * Dim()`).  The output buffer is embedded as a map from cell
position to an optional (id, distance) cell; the backend as a function from
a query row and an offset `j < k` to the cell value. -/

/-- One fan-out task of `FlatIndexNode::Search`: task `i` fills positions
`k*i .. k*i+k-1` of the output buffer from backend results on query row `i`,
leaving every other position untouched. -/
def searchTaskWrite (k : Nat) (f : List Int → Nat → Int × Int)
    (queries : List (List Int)) (i : Nat)
    (buf : Nat → Option (Int × Int)) : Nat → Option (Int × Int) :=
  fun p => if k * i ≤ p ∧ p < k * i + k
    then some (f (queries.getD i []) (p - k * i))
    else buf p

/-- Running the batch's tasks in a given completion order over an initial
buffer. -/
def runSearchTasks (k : Nat) (f : List Int → Nat → Int × Int)
    (queries : List (List Int)) (order : List Nat)
    (buf : Nat → Option (Int × Int)) : Nat → Option (Int × Int) :=
  order.foldl (fun b i => searchTaskWrite k f queries i b) buf

/-- The output buffer of a full batch run in submission order over a fresh
buffer. -/
def searchBuffer (k : Nat) (f : List Int → Nat → Int × Int)
    (queries : List (List Int)) : Nat → Option (Int × Int) :=
  runSearchTasks k f queries (List.range queries.length) (fun _ => none)

/-- Output slot `i`: the `k` cells `buf (k*i) .. buf (k*i+k-1)`. -/
def slotList (k : Nat) (buf : Nat → Option (Int × Int)) (i : Nat) :
    List (Option (Int × Int)) :=
  (List.range k).map fun j => buf (k * i + j)

/-- Consistently permuting the query rows by `σ`. -/
def permuteQueries (σ : Nat → Nat) (queries : List (List Int)) :
    List (List Int) :=
  (List.range queries.length).map fun i => queries.getD (σ i) []

end Knowhere

namespace Knowhere

/-! ## The future-join loop of `Search`/`RangeSearch`

Both methods collect one future per spawned task and then run
`for (auto& fut : futs) fut.get();` inside a `try` block whose `catch`
returns the single status `faiss_inner_error`.  `fut.get()` blocks until
task `i` finishes and rethrows its exception; a throw leaves the loop, so
futures after the first failing one are never awaited.  A task outcome is
embedded as `Except Unit Unit`; the loop returns how many futures were
awaited and the first error, if any. -/

/-- The `fut.get()` join loop: awaits futures in submission order, stopping
at (and including) the first one that rethrows. Returns the number of
futures awaited and the first rethrown error. -/
def futuresGetLoop : List (Except Unit Unit) → Nat × Option Unit
  | [] => (0, none)
  | .ok _ :: rest =>
    let r := futuresGetLoop rest
    (r.1 + 1, r.2)
  | .error e :: _ => (1, some e)

/-- The surrounding `try`/`catch` of `Search`/`RangeSearch`: any exception
rethrown by the join loop is converted into the single batch status
`faiss_inner_error`; otherwise the batch succeeds. -/
def searchJoinStatus (outs : List (Except Unit Unit)) : Status :=
  match (futuresGetLoop outs).2 with
  | some _ => .faiss_inner_error
  | none => .success

end Knowhere

namespace Knowhere

/-! ## `knowhere::utils::GetThreadNum` (`common/Utils.cpp`)

Reads one line from `ps -p <id> -Tf | wc -l` (at most `THREAD_LENGTH - 1 = 6`
characters), throws if nothing could be read, strips a trailing newline,
converts with `atoi`, and throws unless the value lies in
`[MIN_THREAD_NUM, MAX_THREAD_NUM] = [0, 100000]`.  The pipe's output is the
external input, embedded as `Option String` (`none` = `fgets` returned
`NULL`); a C++ throw is `Except.error ()`. -/

/-- Value of a digit string (`atoi` digit accumulation). -/
def digitsVal (cs : List Char) : Nat :=
  cs.foldl (fun acc c => acc * 10 + (c.toNat - 48)) 0

/-- Model of C `atoi`: skip leading whitespace, optional sign, then a
maximal run of digits. -/
def atoiModel (s : String) : Int :=
  let cs := s.toList.dropWhile fun c => c = ' ' ∨ c = '\t' ∨ c = '\n'
  match cs with
  | '-' :: rest => -(Int.ofNat (digitsVal (rest.takeWhile Char.isDigit)))
  | '+' :: rest => Int.ofNat (digitsVal (rest.takeWhile Char.isDigit))
  | _ => Int.ofNat (digitsVal (cs.takeWhile Char.isDigit))

/-- Strip one trailing newline, as the source does on `fBuff`. -/
def stripTrailingNewline (s : String) : String :=
  match s.toList.getLast? with
  | some '\n' => ⟨s.toList.dropLast⟩
  | _ => s

/-- `knowhere::utils::GetThreadNum`, as a function of the text the `ps`
pipe produced (`none` when `fgets` reads nothing). -/
def GetThreadNum (fBuff : Option String) : Except Unit Int :=
  match fBuff with
  | none => .error ()
  | some s =>
    let ans := atoiModel (stripTrailingNewline s)
    if ans < 0 ∨ ans > 100000 then .error () else .ok ans

end Knowhere

namespace Knowhere

/-- C10: for every pipe output, `GetThreadNum` either throws or returns a
thread count in the closed range `[0, 100000]`; it never returns a value
outside that range. -/
theorem getThreadNum_range (fBuff : Option String) (r : Int)
    (h : GetThreadNum fBuff = .ok r) : 0 ≤ r ∧ r ≤ 100000 := by
  cases fBuff with
  | none => simp [GetThreadNum] at h
  | some s =>
    simp only [GetThreadNum] at h
    split at h
    · exact absurd h (by simp)
    · rename_i hcond
      push_neg at hcond
      cases h
      omega

/-- Witness for C10 at the concrete pipe output `"12\n"`. -/
theorem getThreadNum_range_witness :
    GetThreadNum (some "12\n") = .ok 12 ∧ 0 ≤ (12 : Int) ∧ (12 : Int) ≤ 100000 :=
  ⟨by rfl, getThreadNum_range (some "12\n") 12 (by rfl)⟩

/-! ### Lemmas on the fan-out task buffer -/

theorem searchTaskWrite_outside (k : Nat) (f : List Int → Nat → Int × Int)
    (queries : List (List Int)) (i : Nat) (buf : Nat → Option (Int × Int))
    (p : Nat) (h : p < k * i ∨ k * i + k ≤ p) :
    searchTaskWrite k f queries i buf p = buf p := by
  simp only [searchTaskWrite]
  rw [if_neg]
  omega

theorem cover_unique {k p i i' : Nat} (h1 : k * i ≤ p) (h2 : p < k * i + k)
    (h3 : k * i' ≤ p) (h4 : p < k * i' + k) : i = i' := by
  rcases Nat.lt_trichotomy i i' with h | h | h
  · have : k * (i + 1) ≤ k * i' := Nat.mul_le_mul_left k h
    rw [Nat.mul_succ] at this
    omega
  · exact h
  · have : k * (i' + 1) ≤ k * i := Nat.mul_le_mul_left k h
    rw [Nat.mul_succ] at this
    omega

theorem runSearchTasks_cons (k : Nat) (f : List Int → Nat → Int × Int)
    (queries : List (List Int)) (a : Nat) (rest : List Nat)
    (buf : Nat → Option (Int × Int)) :
    runSearchTasks k f queries (a :: rest) buf
      = runSearchTasks k f queries rest (searchTaskWrite k f queries a buf) := rfl

theorem runSearchTasks_noncover (k : Nat) (f : List Int → Nat → Int × Int)
    (queries : List (List Int)) (order : List Nat)
    (buf : Nat → Option (Int × Int)) (p : Nat)
    (h : ∀ i ∈ order, ¬(k * i ≤ p ∧ p < k * i + k)) :
    runSearchTasks k f queries order buf p = buf p := by
  induction order generalizing buf with
  | nil => rfl
  | cons a rest ih =>
    rw [runSearchTasks_cons, ih _ fun i hi => h i (List.mem_cons_of_mem a hi)]
    exact searchTaskWrite_outside k f queries a buf p
      (by have := h a (List.mem_cons_self a rest); omega)

theorem runSearchTasks_cover (k : Nat) (f : List Int → Nat → Int × Int)
    (queries : List (List Int)) (order : List Nat) (hnd : order.Nodup)
    (buf : Nat → Option (Int × Int)) (p i : Nat) (hi : i ∈ order)
    (h1 : k * i ≤ p) (h2 : p < k * i + k) :
    runSearchTasks k f queries order buf p
      = some (f (queries.getD i []) (p - k * i)) := by
  induction order generalizing buf with
  | nil => cases hi
  | cons a rest ih =>
    rw [runSearchTasks_cons]
    rcases List.mem_cons.mp hi with rfl | hmem
    · rw [runSearchTasks_noncover]
      · simp only [searchTaskWrite]
        rw [if_pos ⟨h1, h2⟩]
      · intro i' hi' ⟨h3, h4⟩
        exact (List.nodup_cons.mp hnd).1 (cover_unique h3 h4 h1 h2 ▸ hi')
    · exact ih (List.nodup_cons.mp hnd).2 _ hmem

theorem searchBuffer_slot (k : Nat) (f : List Int → Nat → Int × Int)
    (queries : List (List Int)) (i : Nat) (hi : i < queries.length) :
    slotList k (searchBuffer k f queries) i
      = (List.range k).map fun j => some (f (queries.getD i []) j) := by
  unfold slotList
  refine List.map_congr_left fun j hj => ?_
  have hjk := List.mem_range.mp hj
  rw [searchBuffer, runSearchTasks_cover k f queries _ (List.nodup_range _) _ _ i
    (List.mem_range.mpr hi) (Nat.le_add_right _ _) (Nat.add_lt_add_left hjk _)]
  rw [Nat.add_sub_cancel_left]

/-- C1: in the per-row fan-out of `FlatIndexNode::Search`, (i) task `i`
writes only into output slot `i`; (ii) the final buffer is independent of
the tasks' completion order; (iii) slot `i` holds exactly the backend's
results on query row `i`; (iv) consistently permuting the query rows
permutes the output slots the same way, reproducing identical per-row
results. -/
theorem flatSearch_slot_isolation (k : Nat) (f : List Int → Nat → Int × Int)
    (queries : List (List Int)) (order : List Nat) (σ : Nat → Nat)
    (hperm : order.Perm (List.range queries.length))
    (hσ : ∀ i, i < queries.length → σ i < queries.length) :
    (∀ i buf p, p < k * i ∨ k * i + k ≤ p →
      searchTaskWrite k f queries i buf p = buf p) ∧
    runSearchTasks k f queries order (fun _ => none) = searchBuffer k f queries ∧
    (∀ i, i < queries.length →
      slotList k (searchBuffer k f queries) i
        = (List.range k).map fun j => some (f (queries.getD i []) j)) ∧
    (∀ i, i < queries.length →
      slotList k (searchBuffer k f (permuteQueries σ queries)) i
        = slotList k (searchBuffer k f queries) (σ i)) := by
  have hnd : order.Nodup := hperm.symm.nodup (List.nodup_range _)
  refine ⟨fun i buf p h => searchTaskWrite_outside k f queries i buf p h, ?_, ?_, ?_⟩
  · funext p
    by_cases h : ∃ i ∈ order, k * i ≤ p ∧ p < k * i + k
    · obtain ⟨i, hi, h1, h2⟩ := h
      rw [runSearchTasks_cover k f queries order hnd _ p i hi h1 h2,
        searchBuffer, runSearchTasks_cover k f queries _ (List.nodup_range _) _ p i
          (hperm.mem_iff.mp hi) h1 h2]
    · rw [runSearchTasks_noncover k f queries order _ p
          (fun i hi hc => h ⟨i, hi, hc⟩),
        searchBuffer, runSearchTasks_noncover k f queries _ _ p
          (fun i hi hc => h ⟨i, hperm.mem_iff.mpr hi, hc⟩)]
  · exact fun i hi => searchBuffer_slot k f queries i hi
  · intro i hi
    have hlen : (permuteQueries σ queries).length = queries.length := by
      simp [permuteQueries]
    have hget : (permuteQueries σ queries).getD i [] = queries.getD (σ i) [] := by
      simp only [permuteQueries, List.getD_eq_getElem?_getD, List.getElem?_map,
        List.getElem?_range hi, Option.map_some]
      rfl
    rw [searchBuffer_slot k f _ i (hlen ▸ hi), hget,
      searchBuffer_slot k f queries (σ i) (hσ i hi)]

/-- Witness for C1 at `k = 2`, two query rows, completion order `[1, 0]` and
the swap permutation. -/
theorem flatSearch_slot_isolation_witness :
    ([1, 0] : List Nat).Perm (List.range ([[5], [7]] : List (List Int)).length) ∧
    (∀ i, i < ([[5], [7]] : List (List Int)).length → 1 - i < ([[5], [7]] : List (List Int)).length) ∧
    (runSearchTasks 2 (fun q j => (q.getD 0 0, (j : Int))) [[5], [7]] [1, 0] (fun _ => none)
      = searchBuffer 2 (fun q j => (q.getD 0 0, (j : Int))) [[5], [7]] ∧
     (∀ i, i < ([[5], [7]] : List (List Int)).length →
      slotList 2 (searchBuffer 2 (fun q j => (q.getD 0 0, (j : Int))) (permuteQueries (fun i => 1 - i) [[5], [7]])) i
        = slotList 2 (searchBuffer 2 (fun q j => (q.getD 0 0, (j : Int))) [[5], [7]]) (1 - i))) :=
  ⟨by decide,
    by
      intro i hi
      simp only [List.length_cons, List.length_nil] at hi ⊢
      omega,
    (flatSearch_slot_isolation 2 (fun q j => (q.getD 0 0, (j : Int)))
      [[5], [7]] [1, 0] (fun i => 1 - i) (by decide)
      (by
        intro i hi
        simp only [List.length_cons, List.length_nil] at hi ⊢
        omega)).2.imp id (fun h => h.2)⟩

/-! ### Lemmas on the future-join loop -/

theorem futuresGetLoop_all_ok (outs : List (Except Unit Unit))
    (h : ∀ x ∈ outs, x = .ok ()) :
    futuresGetLoop outs = (outs.length, none) := by
  induction outs with
  | nil => rfl
  | cons a rest ih =>
    have ha := h a (List.mem_cons_self a rest)
    subst ha
    simp only [futuresGetLoop, ih fun x hx => h x (List.mem_cons_of_mem _ hx),
      List.length_cons]

theorem futuresGetLoop_first_error (pre post : List (Except Unit Unit)) (e : Unit)
    (hpre : ∀ x ∈ pre, x = .ok ()) :
    futuresGetLoop (pre ++ .error e :: post) = (pre.length + 1, some e) := by
  induction pre with
  | nil => rfl
  | cons a rest ih =>
    have ha := hpre a (List.mem_cons_self a rest)
    subst ha
    have ih' : futuresGetLoop (rest.append (.error e :: post))
        = (rest.length + 1, some e) :=
      ih fun x hx => hpre x (List.mem_cons_of_mem _ hx)
    simp only [List.cons_append, futuresGetLoop, ih', List.length_cons]

/-- C2 (amended): in the `fut.get()` join loop of `Search`/`RangeSearch`,
when the first failing future (in submission order) is preceded by `pre`
successful ones, exactly `pre.length + 1` futures are awaited — the futures
after the first failing one are NOT awaited before the call returns — and
the whole batch reports the single status `faiss_inner_error` with no
partial result; when every task succeeds, all futures are awaited and the
batch succeeds. -/
theorem searchJoin_first_error_aborts (pre post : List (Except Unit Unit)) (e : Unit)
    (hpre : ∀ x ∈ pre, x = .ok ()) :
    futuresGetLoop (pre ++ .error e :: post) = (pre.length + 1, some e) ∧
    searchJoinStatus (pre ++ .error e :: post) = .faiss_inner_error ∧
    (∀ outs : List (Except Unit Unit), (∀ x ∈ outs, x = .ok ()) →
      futuresGetLoop outs = (outs.length, none) ∧ searchJoinStatus outs = .success) := by
  refine ⟨futuresGetLoop_first_error pre post e hpre, ?_, fun outs h => ⟨futuresGetLoop_all_ok outs h, ?_⟩⟩
  · rw [searchJoinStatus, futuresGetLoop_first_error pre post e hpre]
  · rw [searchJoinStatus, futuresGetLoop_all_ok outs h]

/-- Witness for C2's amended theorem at the concrete batch
`[ok, error, ok]`. -/
theorem searchJoin_first_error_aborts_witness :
    (∀ x ∈ ([.ok ()] : List (Except Unit Unit)), x = .ok ()) ∧
    futuresGetLoop [.ok (), .error (), .ok ()] = (2, some ()) ∧
    searchJoinStatus [.ok (), .error (), .ok ()] = .faiss_inner_error :=
  ⟨fun _ hx => List.mem_singleton.mp hx,
    ((searchJoin_first_error_aborts [.ok ()] [.ok ()] ()
      (fun _ hx => List.mem_singleton.mp hx)).1),
    ((searchJoin_first_error_aborts [.ok ()] [.ok ()] ()
      (fun _ hx => List.mem_singleton.mp hx)).2.1)⟩

/-- C2 counterexample: with task outcomes `[error, ok]`, only 1 of the 2
spawned futures is awaited before the call returns, refuting the claim that
the call waits for every spawned task whenever one fails. -/
theorem searchJoin_counterexample :
    (futuresGetLoop [.error (), .ok ()]).1
      ≠ ([.error (), .ok ()] : List (Except Unit Unit)).length := by
  decide

end Knowhere

namespace Knowhere

/-! ## The flat backend instance (`faiss::IndexFlat` / `faiss::IndexBinaryFlat`)

The backend instance owned by a `FlatIndexNode`: dimensionality, metric
kind and the stored row vectors.  The numeric search kernel itself is
external to the repository; `flatSearchOneRow` below is an executable exact
brute-force stand-in (deterministic function of the instance state and the
query row), which is all the claims need. -/

structure FaissIndexFlat where
  d : Nat
  metric_type : Metric
  xb : List (List Int)
  deriving DecidableEq

/-- `ntotal`: number of stored rows. -/
def FaissIndexFlat.ntotal (i : FaissIndexFlat) : Nat := i.xb.length

/-- `index->add(n, x)`: append `n` rows to the stored vectors. -/
def FaissIndexFlat.add (i : FaissIndexFlat) (rows : List (List Int)) :
    FaissIndexFlat :=
  { i with xb := i.xb ++ rows }

/-- Well-formedness: every stored row has the instance's dimensionality. -/
def FaissIndexFlat.WF (i : FaissIndexFlat) : Prop :=
  ∀ r ∈ i.xb, r.length = i.d

/-- Squared-L2 distance stand-in. -/
def l2Dist (q v : List Int) : Int :=
  ((q.zip v).map fun p => (p.1 - p.2) ^ 2).sum

/-- Inner-product score stand-in. -/
def ipScore (q v : List Int) : Int :=
  ((q.zip v).map fun p => p.1 * p.2).sum

/-- Hamming distance stand-in. -/
def hammingDist (q v : List Int) : Int :=
  ((q.zip v).map fun p => if p.1 = p.2 then 0 else 1).sum

/-- A best-first-ascending score per metric (inner product negated so that
smaller is better for all metrics). -/
def metricDist (m : Metric) (q v : List Int) : Int :=
  match m with
  | .L2 => l2Dist q v
  | .IP => -(ipScore q v)
  | .Hamming => hammingDist q v

/-- Insert one scored candidate into a distance-ascending list. -/
def insertByDist (x : Int × Int) : List (Int × Int) → List (Int × Int)
  | [] => [x]
  | y :: ys => if x.2 ≤ y.2 then x :: y :: ys else y :: insertByDist x ys

/-- Sort scored candidates by ascending distance (insertion sort). -/
def sortByDist (l : List (Int × Int)) : List (Int × Int) :=
  l.foldr insertByDist []

/-- Brute-force top-`k` of one query row over the stored vectors, padded to
width `k` with the sentinel id `-1` (the faiss `index->search(1, …)` kernel
stand-in). -/
def flatSearchOneRow (idx : FaissIndexFlat) (k : Nat) (q : List Int) :
    List (Int × Int) :=
  let sorted := sortByDist
    (idx.xb.enum.map fun p => ((p.1 : Int), metricDist idx.metric_type q p.2))
  sorted.take k ++ List.replicate (k - sorted.length) (-1, 0)

end Knowhere

namespace Knowhere

/-! ## Range-search band filter and result merger

`FlatIndexNode::RangeSearch` calls `FilterRangeSearchResultForOneNq` inside
each per-row task (only when `range_filter` differs from the disabled
sentinel) and then `GetRangeSearchResult` on the joined per-row lists.
Both are declared in `common/range_util.h`; their definitions are not under
`src/`, so they are modelled from the spec below.  A per-row hit list is
embedded as a list of (id, distance) pairs, standing for the paired
id/distance arrays of the source. -/

/-- Modelled from the spec: the band predicate of §4.3 — a hit survives iff
its distance lies in the half-open interval determined by `radius` and
`range_filter`, with the comparison direction selected once by the metric
orientation: similarity-style (`is_ip`, higher is closer) keeps
`radius < d ≤ range_filter`; distance-style keeps the complementary band
`range_filter ≤ d < radius`. -/
def bandPred (is_ip : Bool) (radius range_filter d : Int) : Bool :=
  if is_ip then radius < d ∧ d ≤ range_filter
  else range_filter ≤ d ∧ d < radius

/-- Modelled from the spec: `FilterRangeSearchResultForOneNq` (declared in
`common/range_util.h`, definition not under `src/`) drops every hit of one
query row whose distance falls outside the configured band. -/
def FilterRangeSearchResultForOneNq (hits : List (Int × Int)) (is_ip : Bool)
    (radius range_filter : Int) : List (Int × Int) :=
  hits.filter fun h => bandPred is_ip radius range_filter h.2

/-- The offsets array: `lims[i]` is the total hit count of rows before `i`,
`lims[n]` the grand total. -/
def limsOf : List (List (Int × Int)) → List Nat
  | [] => [0]
  | r :: rs => 0 :: (limsOf rs).map (· + r.length)

/-- Modelled from the spec: the per-row filtering pass of the §4.3 merger —
applied only when the band filter differs from the disabled sentinel
(`none`). -/
def mergeFilteredRows (rows : List (List (Int × Int))) (is_ip : Bool)
    (radius : Int) (range_filter : Option Int) : List (List (Int × Int)) :=
  match range_filter with
  | some rf => rows.map fun r => FilterRangeSearchResultForOneNq r is_ip radius rf
  | none => rows

/-- Modelled from the spec: `GetRangeSearchResult` (declared in
`common/range_util.h`, definition not under `src/`) — the §4.3 merger:
filter each row by the band (when enabled), concatenate the surviving rows
in row order into one id buffer and one distance buffer, and emit the
offsets array. -/
def GetRangeSearchResult (rows : List (List (Int × Int))) (is_ip : Bool)
    (radius : Int) (range_filter : Option Int) :
    List Int × List Int × List Nat :=
  let rows' := mergeFilteredRows rows is_ip radius range_filter
  (rows'.flatten.map Prod.fst, rows'.flatten.map Prod.snd, limsOf rows')

end Knowhere

namespace Knowhere

/-! ## `FlatIndexNode` (src/src/index/flat/flat.cc)

The node owns at most one backend instance through a raw pointer
(`index_`); `delete` of a backend instance is logged in `freed` so that
release of resources is observable in the model.  The template parameter
`T` (`faiss::IndexFlat` vs `faiss::IndexBinaryFlat`) is carried as
`variantFloat`. -/

structure FlatIndexNode where
  index_ : Option FaissIndexFlat
  freed : List FaissIndexFlat
  variantFloat : Bool
  deriving DecidableEq

/-- `if (this->index_) { delete this->index_; }` — the delete-old step
shared by `Add` and `Deserialize`. -/
def FlatIndexNode.deleteOldIndex (node : FlatIndexNode) : FlatIndexNode :=
  match node.index_ with
  | some old => { node with index_ := none, freed := node.freed ++ [old] }
  | none => node

/-- `FlatIndexNode::Add`: parse the metric, construct a fresh backend
instance of the dataset's dimensionality, delete any prior instance,
install the fresh one and add the dataset's rows into it.  (The
`new (std::nothrow)` allocation is modelled as succeeding.) -/
def FlatIndexNode.Add (node : FlatIndexNode) (ds : DataSet) (cfg : FlatConfig) :
    Status × FlatIndexNode :=
  match Str2FaissMetricType cfg.metric_type with
  | .error e => (e, node)
  | .ok m =>
    let fresh : FaissIndexFlat := ⟨ds.dim, m, []⟩
    let node₁ := node.deleteOldIndex
    (.success, { node₁ with index_ := some (fresh.add ds.tensor) })

/-- `FlatIndexNode::Train`: a no-op returning success. -/
def FlatIndexNode.Train (node : FlatIndexNode) (_ds : DataSet)
    (_cfg : FlatConfig) : Status × FlatIndexNode :=
  (.success, node)

/-- `FlatIndexNode::Build` = `Train` then `Add`. -/
def FlatIndexNode.Build (node : FlatIndexNode) (ds : DataSet)
    (cfg : FlatConfig) : Status × FlatIndexNode :=
  match node.Train ds cfg with
  | (.success, n₁) => n₁.Add ds cfg
  | (e, n₁) => (e, n₁)

/-- `FlatIndexNode::Count`: `index_->ntotal`; dereferencing a null
`index_` is a crash, embedded as `none`. -/
def FlatIndexNode.Count (node : FlatIndexNode) : Option Nat :=
  node.index_.map FaissIndexFlat.ntotal

/-- `FlatIndexNode::Search`: `empty_index` on a null backend; otherwise one
fan-out task per query row, task `i` producing slot `i` from row `i` (the
per-task buffer discipline is verified separately on `searchTaskWrite`;
here the joined result is the per-row slot list). -/
def FlatIndexNode.Search (node : FlatIndexNode) (ds : DataSet)
    (cfg : FlatConfig) : Except Status (List (List (Int × Int))) :=
  match node.index_ with
  | none => .error .empty_index
  | some idx => .ok (ds.tensor.map fun q => flatSearchOneRow idx cfg.k q)

/-- `is_ip = metric_type == METRIC_INNER_PRODUCT && is_same_v<T, IndexFlat>`. -/
def isIpMetric (idx : FaissIndexFlat) (variantFloat : Bool) : Bool :=
  (idx.metric_type = Metric.IP) && variantFloat

/-- The joined per-row hit lists of `RangeSearch` just before the merger:
task `i` range-searches row `i` through the backend kernel (a parameter:
the faiss `range_search` kernel is external) and, when the band filter is
enabled, filters its own row. -/
def rangeRows (idx : FaissIndexFlat) (variantFloat : Bool) (cfg : FlatConfig)
    (backend : FaissIndexFlat → List Int → Int → List (Int × Int))
    (ds : DataSet) : List (List (Int × Int)) :=
  ds.tensor.map fun q =>
    let hits := backend idx q cfg.radius
    match cfg.range_filter with
    | some rf =>
      FilterRangeSearchResultForOneNq hits (isIpMetric idx variantFloat)
        cfg.radius rf
    | none => hits

/-- `FlatIndexNode::RangeSearch`: `empty_index` on a null backend;
otherwise fan out per row, join, and merge through
`GetRangeSearchResult`. -/
def FlatIndexNode.RangeSearch (node : FlatIndexNode) (ds : DataSet)
    (cfg : FlatConfig)
    (backend : FaissIndexFlat → List Int → Int → List (Int × Int)) :
    Except Status (List Int × List Int × List Nat) :=
  match node.index_ with
  | none => .error .empty_index
  | some idx =>
    .ok (GetRangeSearchResult (rangeRows idx node.variantFloat cfg backend ds)
      (isIpMetric idx node.variantFloat) cfg.radius cfg.range_filter)

/-- The per-row surviving hit lists of a `RangeSearch` call (what the
merger flattens); empty when the node is empty. -/
def FlatIndexNode.survivingRangeRows (node : FlatIndexNode) (ds : DataSet)
    (cfg : FlatConfig)
    (backend : FaissIndexFlat → List Int → Int → List (Int × Int)) :
    List (List (Int × Int)) :=
  match node.index_ with
  | none => []
  | some idx =>
    mergeFilteredRows (rangeRows idx node.variantFloat cfg backend ds)
      (isIpMetric idx node.variantFloat) cfg.radius cfg.range_filter

/-- The node's metric orientation flag (false on an empty node). -/
def FlatIndexNode.isIp (node : FlatIndexNode) : Bool :=
  match node.index_ with
  | some idx => isIpMetric idx node.variantFloat
  | none => false

/-- `FlatIndexNode::GetIndexMeta`: always `not_implemented`; the node state
is returned unchanged (the method is `const` and touches nothing). -/
def FlatIndexNode.GetIndexMeta (node : FlatIndexNode) (_cfg : FlatConfig) :
    Except Status Unit × FlatIndexNode :=
  (.error .not_implemented, node)

end Knowhere

namespace Knowhere

/-! ## Serialization (`Serialize` / `Deserialize`)

`faiss::write_index` / `faiss::read_index` and the `MemoryIOWriter` /
`MemoryIOReader` byte shuttling are external to the repository (`io/FaissIO.h`,
faiss).  Modelled from the spec's blob-container and round-trip contract:
an injective executable encoding of the backend instance with a matching
decoder.  The blob container (`BinarySet`) is a list of named byte
blobs. -/

/-- Encoding of a metric kind. -/
def metricCode : Metric → Int
  | .L2 => 0
  | .IP => 1
  | .Hamming => 2

/-- Decoding of a metric kind. -/
def metricOfCode (c : Int) : Option Metric :=
  if c = 0 then some .L2
  else if c = 1 then some .IP
  else if c = 2 then some .Hamming
  else none

/-- Modelled from the spec: `faiss::write_index` into a `MemoryIOWriter` —
an injective byte encoding of the backend instance: header (dimensionality,
metric, row count) followed by the rows, flattened row-major. -/
def encodeFaissIndexFlat (i : FaissIndexFlat) : List Int :=
  (i.d : Int) :: metricCode i.metric_type :: (i.xb.length : Int) :: i.xb.flatten

/-- Split a flat buffer back into `n` rows of `d` scalars each; `none` on a
malformed buffer. -/
def splitRows : Nat → Nat → List Int → Option (List (List Int))
  | 0, _, [] => some []
  | 0, _, _ :: _ => none
  | n + 1, d, l =>
    if d ≤ l.length then
      (splitRows n d (l.drop d)).map fun rs => l.take d :: rs
    else none

/-- Modelled from the spec: `faiss::read_index` from a `MemoryIOReader` —
the matching decoder; `none` stands for the exception faiss throws on a
malformed blob. -/
def decodeFaissIndexFlat (bytes : List Int) : Option FaissIndexFlat :=
  match bytes with
  | dd :: mc :: nn :: rest =>
    match metricOfCode mc with
    | none => none
    | some m =>
      if 0 ≤ dd ∧ 0 ≤ nn then
        match splitRows nn.toNat dd.toNat rest with
        | some rows => some ⟨dd.toNat, m, rows⟩
        | none => none
      else none
  | _ => none

/-- The named-blob container (`knowhere::BinarySet`). -/
abbrev BinarySet := List (String × List Int)

/-- `BinarySet::Append`. -/
def BinarySet.Append (bs : BinarySet) (name : String) (bytes : List Int) :
    BinarySet :=
  bs ++ [(name, bytes)]

/-- `BinarySet::GetByName`: `none` stands for the null pointer returned on
a missing name. -/
def BinarySet.GetByName (bs : BinarySet) (name : String) : Option (List Int) :=
  (bs.find? fun p => p.1 = name).map Prod.snd

/-- The blob name used by the flat node: `"FLAT"` for the float variant,
`"BinaryIVF"` for the binary variant. -/
def serializeName (variantFloat : Bool) : String :=
  if variantFloat then "FLAT" else "BinaryIVF"

/-- `FlatIndexNode::Serialize`: `empty_index` on a null backend, otherwise
append the encoded instance under the variant's blob name. -/
def FlatIndexNode.Serialize (node : FlatIndexNode) (binset : BinarySet) :
    Status × BinarySet :=
  match node.index_ with
  | none => (.empty_index, binset)
  | some idx =>
    (.success,
      binset.Append (serializeName node.variantFloat) (encodeFaissIndexFlat idx))

/-- `FlatIndexNode::Deserialize`: delete any prior instance first
(`if (index_) { delete index_; index_ = nullptr; }`), then look up the
variant's blob name and decode a fresh instance into `index_`.  The outer
`none` stands for the two crash paths the source leaves unguarded: a
missing name (`binary` is null and `binary->size` dereferences it) and a
decoder throw (`Deserialize` has no try/catch). -/
def FlatIndexNode.Deserialize (node : FlatIndexNode) (binset : BinarySet) :
    Option (Status × FlatIndexNode) :=
  let node₁ := node.deleteOldIndex
  match binset.GetByName (serializeName node.variantFloat) with
  | none => none
  | some bytes =>
    match decodeFaissIndexFlat bytes with
    | none => none
    | some idx => some (.success, { node₁ with index_ := some idx })

end Knowhere

namespace Knowhere

/-! ## `GpuIvfIndexNode` (src/unnamed/part_000)

Only the operations the claims touch are embedded.  A device-resident
instance is the host-side decoded index carried through
`faiss::gpu::index_cpu_to_gpu`; deletes are logged in `freed` as for the
flat node. -/

/-- A device-resident backend instance: the host index it was cloned
from. -/
structure GpuIndex where
  host : FaissIndexFlat
  deriving DecidableEq

/-- `faiss::gpu::index_cpu_to_gpu` (external): clone a host index onto the
device. -/
def index_cpu_to_gpu (i : FaissIndexFlat) : GpuIndex := ⟨i⟩

/-- GPU IVF search configuration (`GpuIvf*Config`): only the knobs the
embedded operations read. -/
structure GpuIvfConfig where
  k : Nat
  nprobe : Nat
  deriving DecidableEq

structure GpuIvfIndexNode where
  gpu_index_ : Option GpuIndex
  freed : List GpuIndex
  deriving DecidableEq

/-- `GpuIvfIndexNode::Search`: there is no null check on `gpu_index_`; on
an empty node `gpu_index_->search(...)` dereferences a null pointer —
embedded as the outer `none` (a crash, not a status).  Otherwise the
block loop fills the per-row slots in row order from the device kernel (a
parameter: the faiss GPU kernel is external). -/
def GpuIvfIndexNode.Search (node : GpuIvfIndexNode) (ds : DataSet)
    (_cfg : GpuIvfConfig) (backend : GpuIndex → List Int → List (Int × Int)) :
    Option (Except Status (List (List (Int × Int)))) :=
  match node.gpu_index_ with
  | none => none
  | some g => some (.ok (ds.tensor.map (backend g)))

/-- `GpuIvfIndexNode::RangeSearch`: always `not_implemented`, state
unchanged. -/
def GpuIvfIndexNode.RangeSearch (node : GpuIvfIndexNode) (_ds : DataSet)
    (_cfg : GpuIvfConfig) : Except Status Unit × GpuIvfIndexNode :=
  (.error .not_implemented, node)

/-- `GpuIvfIndexNode::GetVectorByIds`: always `not_implemented`, state
unchanged. -/
def GpuIvfIndexNode.GetVectorByIds (node : GpuIvfIndexNode) (_ds : DataSet)
    (_cfg : GpuIvfConfig) : Except Status Unit × GpuIvfIndexNode :=
  (.error .not_implemented, node)

/-- `GpuIvfIndexNode::GetIndexMeta`: always `not_implemented`, state
unchanged. -/
def GpuIvfIndexNode.GetIndexMeta (node : GpuIvfIndexNode)
    (_cfg : GpuIvfConfig) : Except Status Unit × GpuIvfIndexNode :=
  (.error .not_implemented, node)

/-- `GpuIvfIndexNode::Deserialize`: look up `"IVF"`, decode a host index
(`faiss::read_index`; a throw is caught and becomes `faiss_inner_error`),
clone it to the device and overwrite `gpu_index_`.  The prior instance is
NOT deleted — `freed` is unchanged.  The outer `none` stands for the
missing-name crash (`binary->size` on a null pointer). -/
def GpuIvfIndexNode.Deserialize (node : GpuIvfIndexNode) (binset : BinarySet) :
    Option (Status × GpuIvfIndexNode) :=
  match binset.GetByName "IVF" with
  | none => none
  | some bytes =>
    match decodeFaissIndexFlat bytes with
    | none => some (.faiss_inner_error, node)
    | some host =>
      some (.success, { node with gpu_index_ := some (index_cpu_to_gpu host) })

end Knowhere

namespace Knowhere

/-- C3 (amended): on an Empty node, the flat variants' `Search` and
`RangeSearch` fail with `empty_index`; the GPU IVF variants instead return
`not_implemented` from `RangeSearch` regardless of state, and their
`Search` performs no empty-index check — on an Empty GPU node it
dereferences a null pointer (a crash, not a status). -/
theorem emptyIndex_search_status :
    (∀ (freed : List FaissIndexFlat) (v : Bool) (ds : DataSet) (cfg : FlatConfig),
      (FlatIndexNode.mk none freed v).Search ds cfg = .error .empty_index) ∧
    (∀ (freed : List FaissIndexFlat) (v : Bool) (ds : DataSet) (cfg : FlatConfig)
      (backend : FaissIndexFlat → List Int → Int → List (Int × Int)),
      (FlatIndexNode.mk none freed v).RangeSearch ds cfg backend
        = .error .empty_index) ∧
    (∀ (node : GpuIvfIndexNode) (ds : DataSet) (cfg : GpuIvfConfig),
      node.RangeSearch ds cfg = (.error .not_implemented, node)) ∧
    (∀ (freed : List GpuIndex) (ds : DataSet) (cfg : GpuIvfConfig)
      (backend : GpuIndex → List Int → List (Int × Int)),
      (GpuIvfIndexNode.mk none freed).Search ds cfg backend = none) :=
  ⟨fun _ _ _ _ => rfl, fun _ _ _ _ _ => rfl, fun _ _ _ => rfl, fun _ _ _ _ => rfl⟩

/-- C3 counterexample: on an Empty GPU IVF node, `RangeSearch` returns
`not_implemented`, not the `empty_index` error the claim requires of every
index instance. -/
theorem emptyIndex_gpu_counterexample :
    ((GpuIvfIndexNode.mk none []).RangeSearch ⟨1, [[0]]⟩ ⟨1, 1⟩).1
        = .error .not_implemented ∧
      Status.not_implemented ≠ Status.empty_index :=
  ⟨rfl, by decide⟩

/-- C9: GPU IVF `RangeSearch`, `GetVectorByIds` and `GetIndexMeta`, and
flat `GetIndexMeta`, return `not_implemented` on every input and leave the
node state unchanged. -/
theorem notImplemented_ops (fnode : FlatIndexNode) (gnode : GpuIvfIndexNode)
    (ds : DataSet) (fcfg : FlatConfig) (gcfg : GpuIvfConfig) :
    fnode.GetIndexMeta fcfg = (.error .not_implemented, fnode) ∧
    gnode.RangeSearch ds gcfg = (.error .not_implemented, gnode) ∧
    gnode.GetVectorByIds ds gcfg = (.error .not_implemented, gnode) ∧
    gnode.GetIndexMeta gcfg = (.error .not_implemented, gnode) :=
  ⟨rfl, rfl, rfl, rfl⟩

/-- C8: a flat `Add` with a parseable metric constructs a fresh backend
instance holding exactly the rows of this call's dataset — any prior
instance is deleted, never appended to — so `Count` afterwards equals the
dataset's row count regardless of the prior state. -/
theorem add_builds_fresh (node : FlatIndexNode) (ds : DataSet)
    (cfg : FlatConfig) (m : Metric)
    (hm : Str2FaissMetricType cfg.metric_type = .ok m) :
    node.Add ds cfg
      = (.success,
          ⟨some ⟨ds.dim, m, ds.tensor⟩, node.deleteOldIndex.freed,
            node.variantFloat⟩) ∧
    (node.Add ds cfg).2.Count = some ds.GetRows ∧
    ∀ old, node.index_ = some old → old ∈ (node.Add ds cfg).2.freed := by
  have hres : node.Add ds cfg
      = (.success,
          ⟨some ⟨ds.dim, m, ds.tensor⟩, node.deleteOldIndex.freed,
            node.variantFloat⟩) := by
    unfold FlatIndexNode.Add
    rw [hm]
    cases h : node.index_ <;>
      simp [FlatIndexNode.deleteOldIndex, h, FaissIndexFlat.add]
  refine ⟨hres, by rw [hres]; rfl, fun old hold => ?_⟩
  rw [hres]
  simp [FlatIndexNode.deleteOldIndex, hold]

/-- Witness for C8: a node already holding one 2-dimensional row receives
an `Add` with a 2-row 3-dimensional dataset; `Count` becomes 2 and the
prior instance is released. -/
theorem add_builds_fresh_witness :
    Str2FaissMetricType "L2" = .ok .L2 ∧
    ((FlatIndexNode.mk (some ⟨2, .L2, [[1, 1]]⟩) [] true).Add
        ⟨3, [[1, 2, 3], [4, 5, 6]]⟩ ⟨"L2", 1, 0, none⟩).2.Count = some 2 ∧
    (⟨2, .L2, [[1, 1]]⟩ : FaissIndexFlat)
      ∈ ((FlatIndexNode.mk (some ⟨2, .L2, [[1, 1]]⟩) [] true).Add
          ⟨3, [[1, 2, 3], [4, 5, 6]]⟩ ⟨"L2", 1, 0, none⟩).2.freed :=
  ⟨rfl,
    (add_builds_fresh (FlatIndexNode.mk (some ⟨2, .L2, [[1, 1]]⟩) [] true)
      ⟨3, [[1, 2, 3], [4, 5, 6]]⟩ ⟨"L2", 1, 0, none⟩ .L2 rfl).2.1,
    (add_builds_fresh (FlatIndexNode.mk (some ⟨2, .L2, [[1, 1]]⟩) [] true)
      ⟨3, [[1, 2, 3], [4, 5, 6]]⟩ ⟨"L2", 1, 0, none⟩ .L2 rfl).2.2
      ⟨2, .L2, [[1, 1]]⟩ rfl⟩

/-- C7 (amended): flat `Deserialize` deletes (releases) the prior backend
instance before the decoded replacement is installed, leaving the node
Built; GPU IVF `Deserialize` also installs the decoded instance and leaves
the node Built, but overwrites the prior pointer WITHOUT releasing it
(its `freed` log is unchanged). -/
theorem deserialize_replaces_prior (node : FlatIndexNode)
    (old idx : FaissIndexFlat) (binset : BinarySet) (bytes : List Int)
    (hold : node.index_ = some old)
    (hname : binset.GetByName (serializeName node.variantFloat) = some bytes)
    (hdec : decodeFaissIndexFlat bytes = some idx) :
    node.deleteOldIndex.index_ = none ∧
    old ∈ node.deleteOldIndex.freed ∧
    node.Deserialize binset
      = some (.success, ⟨some idx, node.freed ++ [old], node.variantFloat⟩) ∧
    ∀ (gnode : GpuIvfIndexNode) (g : GpuIndex) (gbin : BinarySet)
      (gbytes : List Int) (host : FaissIndexFlat),
      gnode.gpu_index_ = some g →
      gbin.GetByName "IVF" = some gbytes →
      decodeFaissIndexFlat gbytes = some host →
      gnode.Deserialize gbin
        = some (.success,
            GpuIvfIndexNode.mk (some (index_cpu_to_gpu host)) gnode.freed) := by
  refine ⟨?_, ?_, ?_, ?_⟩
  · simp [FlatIndexNode.deleteOldIndex, hold]
  · simp [FlatIndexNode.deleteOldIndex, hold]
  · simp [FlatIndexNode.Deserialize, FlatIndexNode.deleteOldIndex, hold,
      hname, hdec]
  · intro gnode g gbin gbytes host _hg hgname hgdec
    cases gnode with
    | mk gi gfreed => simp [GpuIvfIndexNode.Deserialize, hgname, hgdec]

/-- Witness for C7's amended theorem: a flat node holding one instance is
deserialized from a container carrying an encoded empty instance; the GPU
branch is instantiated with a node holding one device instance. -/
theorem deserialize_replaces_prior_witness :
    (FlatIndexNode.mk (some ⟨1, .L2, [[7]]⟩) [] true).index_
        = some ⟨1, .L2, [[7]]⟩ ∧
    (FlatIndexNode.mk (some ⟨1, .L2, [[7]]⟩) [] true).Deserialize
        [("FLAT", encodeFaissIndexFlat ⟨1, .L2, []⟩)]
      = some (.success,
          ⟨some ⟨1, .L2, []⟩, [] ++ [⟨1, .L2, [[7]]⟩], true⟩) ∧
    (GpuIvfIndexNode.mk (some ⟨⟨1, .L2, [[0]]⟩⟩) []).Deserialize
        [("IVF", encodeFaissIndexFlat ⟨1, .L2, []⟩)]
      = some (.success,
          GpuIvfIndexNode.mk (some (index_cpu_to_gpu ⟨1, .L2, []⟩)) []) :=
  ⟨rfl,
    (deserialize_replaces_prior (FlatIndexNode.mk (some ⟨1, .L2, [[7]]⟩) [] true)
      ⟨1, .L2, [[7]]⟩ ⟨1, .L2, []⟩
      [("FLAT", encodeFaissIndexFlat ⟨1, .L2, []⟩)]
      (encodeFaissIndexFlat ⟨1, .L2, []⟩) rfl rfl rfl).2.2.1,
    (deserialize_replaces_prior (FlatIndexNode.mk (some ⟨1, .L2, [[7]]⟩) [] true)
      ⟨1, .L2, [[7]]⟩ ⟨1, .L2, []⟩
      [("FLAT", encodeFaissIndexFlat ⟨1, .L2, []⟩)]
      (encodeFaissIndexFlat ⟨1, .L2, []⟩) rfl rfl rfl).2.2.2
      (GpuIvfIndexNode.mk (some ⟨⟨1, .L2, [[0]]⟩⟩) []) ⟨⟨1, .L2, [[0]]⟩⟩
      [("IVF", encodeFaissIndexFlat ⟨1, .L2, []⟩)]
      (encodeFaissIndexFlat ⟨1, .L2, []⟩) ⟨1, .L2, []⟩ rfl rfl rfl⟩

/-- C7 counterexample: a GPU IVF node holding a prior device instance is
deserialized successfully, yet its `freed` log stays empty — the prior
instance's resources were NOT released, refuting the claim for GPU
variants. -/
theorem deserialize_gpu_leak_counterexample :
    (GpuIvfIndexNode.mk (some ⟨⟨1, .L2, [[0]]⟩⟩) []).Deserialize
        [("IVF", encodeFaissIndexFlat ⟨1, .L2, []⟩)]
      = some (.success, GpuIvfIndexNode.mk (some ⟨⟨1, .L2, []⟩⟩) []) ∧
    (⟨⟨1, .L2, [[0]]⟩⟩ : GpuIndex)
      ∉ (GpuIvfIndexNode.mk (some ⟨⟨1, .L2, []⟩⟩) []).freed := by
  exact ⟨rfl, by simp⟩

end Knowhere

namespace Knowhere

/-! ### Serialization round-trip lemmas -/

theorem splitRows_flatten (d : Nat) (rows : List (List Int))
    (h : ∀ r ∈ rows, r.length = d) :
    splitRows rows.length d rows.flatten = some rows := by
  induction rows with
  | nil => rfl
  | cons r rs ih =>
    have hr := h r (List.mem_cons_self r rs)
    subst hr
    have hle : r.length ≤ (r ++ rs.flatten).length := by
      rw [List.length_append]
      omega
    simp only [List.flatten_cons, List.length_cons, splitRows, if_pos hle,
      ih fun x hx => h x (List.mem_cons_of_mem _ hx), List.take_left,
      List.drop_left]
    rfl

theorem decode_encode (i : FaissIndexFlat) (h : i.WF) :
    decodeFaissIndexFlat (encodeFaissIndexFlat i) = some i := by
  cases i with
  | mk d m xb =>
    simp only [FaissIndexFlat.WF] at h
    have hm : metricOfCode (metricCode m) = some m := by cases m <;> rfl
    simp [encodeFaissIndexFlat, decodeFaissIndexFlat, hm, Int.toNat_natCast,
      Int.natCast_nonneg, splitRows_flatten d xb h]

/-- C6: serializing a Built flat node and deserializing the produced blob
container into a fresh node reproduces a node whose `Search` output on any
query batch is identical — ids bit-for-bit and distances exactly equal
(hence within any floating-point tolerance). -/
theorem serialize_deserialize_search_roundtrip (node : FlatIndexNode)
    (idx : FaissIndexFlat) (hidx : node.index_ = some idx) (hwf : idx.WF) :
    (node.Serialize []).1 = .success ∧
    (FlatIndexNode.mk none [] node.variantFloat).Deserialize
        (node.Serialize []).2
      = some (.success, FlatIndexNode.mk (some idx) [] node.variantFloat) ∧
    ∀ (ds : DataSet) (cfg : FlatConfig),
      (FlatIndexNode.mk (some idx) [] node.variantFloat).Search ds cfg
        = node.Search ds cfg := by
  have hser : node.Serialize []
      = (.success,
          [(serializeName node.variantFloat, encodeFaissIndexFlat idx)]) := by
    unfold FlatIndexNode.Serialize
    rw [hidx]
    rfl
  refine ⟨by rw [hser], ?_, ?_⟩
  · rw [hser]
    have hfind : BinarySet.GetByName
        [(serializeName node.variantFloat, encodeFaissIndexFlat idx)]
        (serializeName node.variantFloat) = some (encodeFaissIndexFlat idx) := by
      simp [BinarySet.GetByName]
    simp [FlatIndexNode.Deserialize, FlatIndexNode.deleteOldIndex, hfind,
      decode_encode idx hwf]
  · intro ds cfg
    unfold FlatIndexNode.Search
    rw [hidx]

/-- Witness for C6 at a concrete one-row index. -/
theorem serialize_deserialize_search_roundtrip_witness :
    (FlatIndexNode.mk (some ⟨1, .L2, [[2]]⟩) [] true).index_
        = some ⟨1, .L2, [[2]]⟩ ∧
    (FaissIndexFlat.mk 1 .L2 [[2]]).WF ∧
    (FlatIndexNode.mk none [] true).Deserialize
        ((FlatIndexNode.mk (some ⟨1, .L2, [[2]]⟩) [] true).Serialize []).2
      = some (.success, FlatIndexNode.mk (some ⟨1, .L2, [[2]]⟩) [] true) :=
  ⟨rfl,
    by
      intro r hr
      rw [List.mem_singleton] at hr
      subst hr
      rfl,
    (serialize_deserialize_search_roundtrip
      (FlatIndexNode.mk (some ⟨1, .L2, [[2]]⟩) [] true) ⟨1, .L2, [[2]]⟩ rfl
      (by
        intro r hr
        rw [List.mem_singleton] at hr
        subst hr
        rfl)).2.1⟩

end Knowhere

namespace Knowhere

/-! ### Lemmas on the offsets array of the merger -/

theorem limsOf_length (rows : List (List (Int × Int))) :
    (limsOf rows).length = rows.length + 1 := by
  induction rows with
  | nil => rfl
  | cons r rs ih => simp [limsOf, ih]

theorem limsOf_head (rows : List (List (Int × Int))) :
    (limsOf rows).getD 0 0 = 0 := by
  cases rows <;> rfl

theorem limsOf_map_getD (rs : List (List (Int × Int))) (c i : Nat)
    (hi : i < (limsOf rs).length) :
    ((limsOf rs).map (· + c)).getD i 0 = (limsOf rs).getD i 0 + c := by
  rw [List.getD_eq_getElem?_getD, List.getElem?_map,
    List.getElem?_eq_getElem hi, List.getD_eq_getElem?_getD,
    List.getElem?_eq_getElem hi]
  rfl

theorem limsOf_getD_succ (r : List (Int × Int)) (rs : List (List (Int × Int)))
    (i : Nat) (hi : i ≤ rs.length) :
    (limsOf (r :: rs)).getD (i + 1) 0 = (limsOf rs).getD i 0 + r.length := by
  have hlen : i < (limsOf rs).length := by rw [limsOf_length]; omega
  show (0 :: (limsOf rs).map (· + r.length)).getD (i + 1) 0 = _
  rw [List.getD_cons_succ, limsOf_map_getD rs r.length i hlen]

theorem limsOf_mono (rows : List (List (Int × Int))) (i : Nat)
    (hi : i + 1 < (limsOf rows).length) :
    (limsOf rows).getD i 0 ≤ (limsOf rows).getD (i + 1) 0 := by
  induction rows generalizing i with
  | nil =>
    rw [limsOf_length, List.length_nil] at hi
    omega
  | cons r rs ih =>
    cases i with
    | zero => exact Nat.zero_le _
    | succ j =>
      rw [limsOf_length, List.length_cons] at hi
      rw [limsOf_getD_succ r rs j (by omega), limsOf_getD_succ r rs (j + 1) (by omega)]
      exact Nat.add_le_add_right (ih j (by rw [limsOf_length]; omega)) _

theorem limsOf_total (rows : List (List (Int × Int))) :
    (limsOf rows).getD rows.length 0 = rows.flatten.length := by
  induction rows with
  | nil => rfl
  | cons r rs ih =>
    rw [List.length_cons, limsOf_getD_succ r rs rs.length (Nat.le_refl _), ih,
      List.flatten_cons, List.length_append]
    omega

theorem limsOf_diff (rows : List (List (Int × Int))) (i : Nat)
    (hi : i < rows.length) :
    (limsOf rows).getD (i + 1) 0 - (limsOf rows).getD i 0
      = (rows.getD i []).length := by
  induction rows generalizing i with
  | nil => exact absurd hi (Nat.not_lt_zero i)
  | cons r rs ih =>
    cases i with
    | zero =>
      rw [limsOf_getD_succ r rs 0 (Nat.zero_le _), limsOf_head rs, limsOf_head]
      simp
    | succ j =>
      have hj : j < rs.length := by
        rw [List.length_cons] at hi
        omega
      rw [limsOf_getD_succ r rs (j + 1) hj, limsOf_getD_succ r rs j (le_of_lt hj),
        Nat.add_sub_add_right, List.getD_cons_succ]
      exact ih j hj

theorem drop_append_length {α : Type} (l₁ l₂ : List α) (n : Nat) :
    (l₁ ++ l₂).drop (l₁.length + n) = l₂.drop n := by
  induction l₁ with
  | nil => simp
  | cons a l₁ ih =>
    rw [List.length_cons, List.cons_append,
      show l₁.length + 1 + n = l₁.length + n + 1 by omega, List.drop_succ_cons]
    exact ih

theorem limsOf_slice (rows : List (List (Int × Int))) (i : Nat)
    (hi : i < rows.length) :
    (rows.flatten.drop ((limsOf rows).getD i 0)).take
        ((limsOf rows).getD (i + 1) 0 - (limsOf rows).getD i 0)
      = rows.getD i [] := by
  induction rows generalizing i with
  | nil => exact absurd hi (Nat.not_lt_zero i)
  | cons r rs ih =>
    cases i with
    | zero =>
      rw [limsOf_getD_succ r rs 0 (Nat.zero_le _), limsOf_head rs, limsOf_head,
        List.flatten_cons, List.drop_zero, Nat.zero_add, Nat.sub_zero,
        List.take_left]
      rfl
    | succ j =>
      have hj : j < rs.length := by
        rw [List.length_cons] at hi
        omega
      rw [limsOf_getD_succ r rs (j + 1) hj, limsOf_getD_succ r rs j (le_of_lt hj),
        Nat.add_sub_add_right, List.flatten_cons, List.getD_cons_succ,
        Nat.add_comm ((limsOf rs).getD j 0) r.length, drop_append_length]
      exact ih j hj

theorem getD_map_of_lt {α β : Type} (f : α → β) (l : List α) (i : Nat)
    (hi : i < l.length) (d : β) (d' : α) :
    (l.map f).getD i d = f (l.getD i d') := by
  rw [List.getD_eq_getElem?_getD, List.getElem?_map,
    List.getElem?_eq_getElem hi, List.getD_eq_getElem?_getD,
    List.getElem?_eq_getElem hi]
  rfl

theorem mergeFilteredRows_length (rows : List (List (Int × Int)))
    (is_ip : Bool) (radius : Int) (range_filter : Option Int) :
    (mergeFilteredRows rows is_ip radius range_filter).length = rows.length := by
  cases range_filter <;> simp [mergeFilteredRows]

theorem map_drop_comm {α β : Type} (f : α → β) (l : List α) (n : Nat) :
    (l.map f).drop n = (l.drop n).map f := by
  induction l generalizing n with
  | nil => simp
  | cons a l ih =>
    cases n with
    | zero => simp
    | succ m =>
      simp only [List.map_cons, List.drop_succ_cons]
      exact ih m

theorem map_take_comm {α β : Type} (f : α → β) (l : List α) (n : Nat) :
    (l.map f).take n = (l.take n).map f := by
  induction l generalizing n with
  | nil => simp
  | cons a l ih =>
    cases n with
    | zero => simp
    | succ m =>
      simp only [List.map_cons, List.take_succ_cons]
      rw [ih m]

/-- C4: for every successful `RangeSearch` over `N` query rows, the
returned offsets array has length `N + 1`, starts at 0, is monotonically
non-decreasing, ends with the total number of emitted ids, and each row's
slice `lims[i] .. lims[i+1]` holds exactly that row's surviving hit ids —
with an empty slice (`lims[i] = lims[i+1]`, slice length equal to the row's
surviving count) for a row with zero surviving hits. -/
theorem rangeSearch_offsets_invariant (node : FlatIndexNode) (ds : DataSet)
    (cfg : FlatConfig)
    (backend : FaissIndexFlat → List Int → Int → List (Int × Int))
    (ids dists : List Int) (lims : List Nat)
    (h : node.RangeSearch ds cfg backend = .ok (ids, dists, lims)) :
    lims.length = ds.GetRows + 1 ∧
    lims.getD 0 0 = 0 ∧
    (∀ i, i + 1 < lims.length → lims.getD i 0 ≤ lims.getD (i + 1) 0) ∧
    lims.getD ds.GetRows 0 = ids.length ∧
    ∀ i, i < ds.GetRows →
      (ids.drop (lims.getD i 0)).take (lims.getD (i + 1) 0 - lims.getD i 0)
        = ((node.survivingRangeRows ds cfg backend).getD i []).map Prod.fst ∧
      lims.getD (i + 1) 0 - lims.getD i 0
        = ((node.survivingRangeRows ds cfg backend).getD i []).length := by
  cases hidx : node.index_ with
  | none =>
    unfold FlatIndexNode.RangeSearch at h
    rw [hidx] at h
    exact absurd h (by simp)
  | some idx =>
    unfold FlatIndexNode.RangeSearch GetRangeSearchResult at h
    rw [hidx] at h
    simp only [Except.ok.injEq, Prod.mk.injEq] at h
    obtain ⟨hids, _hdists, hlims⟩ := h
    subst hids
    subst hlims
    set rows' := mergeFilteredRows (rangeRows idx node.variantFloat cfg backend ds)
      (isIpMetric idx node.variantFloat) cfg.radius cfg.range_filter with hrows
    have hsurv : node.survivingRangeRows ds cfg backend = rows' := by
      unfold FlatIndexNode.survivingRangeRows
      rw [hidx]
    have hlen' : rows'.length = ds.GetRows := by
      rw [hrows, mergeFilteredRows_length]
      simp [rangeRows, DataSet.GetRows]
    refine ⟨by rw [limsOf_length, hlen'], limsOf_head rows',
      fun i hi => limsOf_mono rows' i hi, ?_, fun i hi => ?_⟩
    · rw [← hlen', limsOf_total, List.length_map]
    · have hi' : i < rows'.length := hlen' ▸ hi
      refine ⟨?_, ?_⟩
      · rw [hsurv, map_drop_comm, map_take_comm, limsOf_slice rows' i hi']
      · rw [hsurv, limsOf_diff rows' i hi']

/-- Witness for C4: a built node, a 2-row batch, the same two hits per row
surviving the band `[0, 10)`; the offsets come out as `[0, 2, 4]`. -/
theorem rangeSearch_offsets_invariant_witness :
    (FlatIndexNode.mk (some ⟨1, .L2, []⟩) [] true).RangeSearch ⟨1, [[0], [9]]⟩
        ⟨"L2", 0, 10, some 0⟩ (fun _ _ _ => [(0, 1), (1, 3)])
      = .ok ([0, 1, 0, 1], [1, 3, 1, 3], [0, 2, 4]) ∧
    ([0, 2, 4] : List Nat).length = 2 + 1 ∧
    ([0, 2, 4] : List Nat).getD 0 0 = 0 ∧
    ([0, 2, 4] : List Nat).getD 2 0 = ([0, 1, 0, 1] : List Int).length :=
  ⟨by rfl,
    (rangeSearch_offsets_invariant (FlatIndexNode.mk (some ⟨1, .L2, []⟩) [] true)
      ⟨1, [[0], [9]]⟩ ⟨"L2", 0, 10, some 0⟩ (fun _ _ _ => [(0, 1), (1, 3)])
      [0, 1, 0, 1] [1, 3, 1, 3] [0, 2, 4] (by rfl)).1,
    (rangeSearch_offsets_invariant (FlatIndexNode.mk (some ⟨1, .L2, []⟩) [] true)
      ⟨1, [[0], [9]]⟩ ⟨"L2", 0, 10, some 0⟩ (fun _ _ _ => [(0, 1), (1, 3)])
      [0, 1, 0, 1] [1, 3, 1, 3] [0, 2, 4] (by rfl)).2.1,
    (rangeSearch_offsets_invariant (FlatIndexNode.mk (some ⟨1, .L2, []⟩) [] true)
      ⟨1, [[0], [9]]⟩ ⟨"L2", 0, 10, some 0⟩ (fun _ _ _ => [(0, 1), (1, 3)])
      [0, 1, 0, 1] [1, 3, 1, 3] [0, 2, 4] (by rfl)).2.2.2.1⟩

/-- C5: when the band filter is enabled (`range_filter` is not the disabled
sentinel), every distance emitted by `RangeSearch` satisfies the band
predicate determined by `radius`, `range_filter` and the metric
orientation; and the same call with the filter disabled yields per-row hit
counts that are greater than or equal to the filtered ones. -/
theorem rangeSearch_band_filter (node : FlatIndexNode) (ds : DataSet)
    (cfg : FlatConfig)
    (backend : FaissIndexFlat → List Int → Int → List (Int × Int)) (rf : Int)
    (ids dists : List Int) (lims : List Nat)
    (ids2 dists2 : List Int) (lims2 : List Nat)
    (hrf : cfg.range_filter = some rf)
    (h : node.RangeSearch ds cfg backend = .ok (ids, dists, lims))
    (h2 : node.RangeSearch ds { cfg with range_filter := none } backend
      = .ok (ids2, dists2, lims2)) :
    (∀ d ∈ dists, bandPred node.isIp cfg.radius rf d = true) ∧
    ∀ i, i < ds.GetRows →
      lims.getD (i + 1) 0 - lims.getD i 0
        ≤ lims2.getD (i + 1) 0 - lims2.getD i 0 := by
  cases hidx : node.index_ with
  | none =>
    unfold FlatIndexNode.RangeSearch at h
    rw [hidx] at h
    exact absurd h (by simp)
  | some idx =>
    unfold FlatIndexNode.RangeSearch GetRangeSearchResult at h h2
    rw [hidx] at h h2
    simp only [Except.ok.injEq, Prod.mk.injEq] at h h2
    obtain ⟨_hids, hdists, hlims⟩ := h
    obtain ⟨_hids2, _hdists2, hlims2⟩ := h2
    subst hdists
    subst hlims
    subst hlims2
    have hip : node.isIp = isIpMetric idx node.variantFloat := by
      unfold FlatIndexNode.isIp
      rw [hidx]
    constructor
    · intro d hd
      rw [List.mem_map] at hd
      obtain ⟨p, hp, rfl⟩ := hd
      rw [List.mem_flatten] at hp
      obtain ⟨row, hrow, hpmem⟩ := hp
      rw [hrf] at hrow
      simp only [mergeFilteredRows, List.mem_map] at hrow
      obtain ⟨row₀, _hrow₀, rfl⟩ := hrow
      rw [hip]
      exact (List.mem_filter.mp hpmem).2
    · intro i hi
      have hlenA : (mergeFilteredRows (rangeRows idx node.variantFloat cfg backend ds)
          (isIpMetric idx node.variantFloat) cfg.radius cfg.range_filter).length
          = ds.GetRows := by
        rw [mergeFilteredRows_length]
        simp [rangeRows, DataSet.GetRows]
      have hlenB : (mergeFilteredRows
          (rangeRows idx node.variantFloat { cfg with range_filter := none } backend ds)
          (isIpMetric idx node.variantFloat) cfg.radius none).length
          = ds.GetRows := by
        rw [mergeFilteredRows_length]
        simp [rangeRows, DataSet.GetRows]
      rw [limsOf_diff _ i (hlenA ▸ hi), limsOf_diff _ i (hlenB ▸ hi)]
      have htensor : i < ds.tensor.length := hi
      rw [hrf]
      simp only [mergeFilteredRows]
      rw [getD_map_of_lt _ _ i (by simpa [rangeRows] using htensor) [] []]
      simp only [rangeRows, hrf]
      rw [getD_map_of_lt _ _ i htensor [] [],
        getD_map_of_lt _ _ i htensor [] []]
      simp only [FilterRangeSearchResultForOneNq]
      exact le_trans (List.length_filter_le _ _)
        (le_trans (List.length_filter_le _ _) (Nat.le_refl _))

/-- Witness for C5: radius 10, band filter 2, one query row; the hit at
distance 5 survives (band `[2, 10)`), the hit at distance 20 is dropped;
disabling the filter keeps both, so the filtered per-row count 1 is at most
the unfiltered count 2. -/
theorem rangeSearch_band_filter_witness :
    (FlatIndexNode.mk (some ⟨1, .L2, []⟩) [] true).RangeSearch ⟨1, [[0]]⟩
        ⟨"L2", 0, 10, some 2⟩ (fun _ _ _ => [(0, 5), (1, 20)])
      = .ok ([0], [5], [0, 1]) ∧
    (FlatIndexNode.mk (some ⟨1, .L2, []⟩) [] true).RangeSearch ⟨1, [[0]]⟩
        ⟨"L2", 0, 10, none⟩ (fun _ _ _ => [(0, 5), (1, 20)])
      = .ok ([0, 1], [5, 20], [0, 2]) ∧
    ([0, 1] : List Nat).getD 1 0 - ([0, 1] : List Nat).getD 0 0
      ≤ ([0, 2] : List Nat).getD 1 0 - ([0, 2] : List Nat).getD 0 0 :=
  ⟨by rfl, by rfl,
    (rangeSearch_band_filter (FlatIndexNode.mk (some ⟨1, .L2, []⟩) [] true)
      ⟨1, [[0]]⟩ ⟨"L2", 0, 10, some 2⟩ (fun _ _ _ => [(0, 5), (1, 20)]) 2
      [0] [5] [0, 1] [0, 1] [5, 20] [0, 2] rfl (by rfl) (by rfl)).2 0
      (by decide)⟩

end Knowhere
